import Mathlib

/-!
Verification of the post-scheduling core (`src/scheduler.py` and the driver
glue in `main.py`) against its natural-language specification.

Modelling conventions:
- Timestamps are natural numbers counting minutes; a calendar day has 1440
  minutes, so `now / 1440` is the calendar date and `+ 1440` is "next day".
  Python `datetime` values serialized via `isoformat` round-trip exactly, so
  storing the minute count directly is faithful.
- A Python record dict becomes the `Record` structure; dict keys that may be
  absent (`scheduled_time`, `period`, `tweet_id`, `error`, `posted_at`)
  become `Option` fields, `none` meaning the key is absent.
- `datetime.now()` becomes an explicit `now : Nat` parameter.
- File persistence (`_load_scheduled` / `_save_scheduled`) is the identity
  boundary between operations: each store-level operation takes and returns
  the full record list, exactly mirroring the load / mutate / save pattern.
- The publishing client (`XAPIClient.post_tweet`) is an external collaborator
  and is modelled as a function `String → PubResult`.
-/

/-- One post record, mirroring the dicts stored in `scheduled.json`. -/
structure Record where
  text : String
  status : String
  created_at : Nat
  posted_at : Option Nat
  scheduled_time : Option Nat
  period : Option String
  tweet_id : Option String
  error : Option String
deriving DecidableEq, Repr

/-- Result returned by the publishing client's `post_tweet`. -/
structure PubResult where
  success : Bool
  tweet_id : String
  error : String
deriving DecidableEq, Repr

/-- Outcome recorded in a results entry: the literal string `"dry_run"` or
the publishing client's result dict. -/
inductive ExecOutcome where
  | dryRun : ExecOutcome
  | api : PubResult → ExecOutcome
deriving DecidableEq, Repr

/-- One entry of the list returned by `execute_scheduled`. -/
structure ResultEntry where
  text : String
  result : ExecOutcome
deriving DecidableEq, Repr

/-- One entry of the append-only history log (`post_history.json`).  The
Python code stores `str(result)`; we keep the structured outcome. -/
structure HistEntry where
  text : String
  timestamp : Nat
  result : ExecOutcome
deriving DecidableEq, Repr

/-- Split a character list on `:` separators, as Python `str.split(":")`. -/
def splitColon : List Char → List (List Char)
  | [] => [[]]
  | c :: cs =>
    if c = ':' then [] :: splitColon cs
    else
      match splitColon cs with
      | [] => [[c]]
      | g :: gs => (c :: g) :: gs

/-- Decimal digits to a natural number, as Python `int`. -/
def digitsToNat (cs : List Char) : Nat :=
  cs.foldl (fun acc c => acc * 10 + (c.toNat - 48)) 0

/-- Parse `"HH:MM"` into hour and minute, mirroring
`hour, minute = map(int, slot["time"].split(":"))`. -/
def parseTime (s : String) : Nat × Nat :=
  match splitColon s.data with
  | [h, m] => (digitsToNat h, digitsToNat m)
  | _ => (0, 0)

/-- The fixed slot table `PEAK_SLOTS`: `(time-of-day string, period)`. -/
def PEAK_SLOTS : List (String × String) :=
  [("07:00", "morning"), ("08:00", "morning"), ("09:00", "morning"),
   ("12:00", "noon"), ("12:30", "noon"), ("13:00", "noon"),
   ("20:00", "evening"), ("21:00", "evening"), ("22:00", "evening"),
   ("23:00", "evening")]

/-- Body of the assignment loop for one tweet and one slot: combine today's
date with the slot's time of day, push to the next day when that moment is
at or before `now`, then set `scheduled_time` and `period`. -/
def assignSlot (now : Nat) (s : String × String) (t : Record) : Record :=
  let hm := (parseTime s.1).1 * 60 + (parseTime s.1).2
  let c := now / 1440 * 1440 + hm
  let v := if c ≤ now then c + 1440 else c
  { t with scheduled_time := some v, period := some s.2 }

/-- The assignment loop: tweet `i` receives slot `i` while slots last;
tweets beyond the slot list are returned untouched. -/
def assignAux (now : Nat) : List (String × String) → List Record → List Record
  | [], ts => ts
  | _ :: _, [] => []
  | s :: ss, t :: ts => assignSlot now s t :: assignAux now ss ts

/-- `PostScheduler.assign_time_slots`: truncate the slot table to the input
length and assign slots positionally. -/
def assign_time_slots (now : Nat) (tweets : List Record) : List Record :=
  assignAux now (PEAK_SLOTS.take tweets.length) tweets

/-- A fresh record as built by `stock_tweets`: only the keys `text`,
`status`, `created_at`, `posted_at` are present. -/
def mkPendingRecord (now : Nat) (t : String) : Record :=
  { text := t, status := "pending", created_at := now, posted_at := none,
    scheduled_time := none, period := none, tweet_id := none, error := none }

/-- `PostScheduler.stock_tweets`: append one pending record per text, in
input order, to the loaded store. -/
def stock_tweets (now : Nat) (store : List Record) (tweets : List String) :
    List Record :=
  tweets.foldl (fun existing t => existing ++ [mkPendingRecord now t]) store

/-- `PostScheduler.get_pending_tweets`: the first `count` records whose
status is `pending`, in store order. -/
def get_pending_tweets (store : List Record) (count : Nat) : List Record :=
  (store.filter (fun s => s.status == "pending")).take count

/-- `get_pending_tweets` at its Python default argument `count = 10`. -/
def get_pending_tweets_default (store : List Record) : List Record :=
  get_pending_tweets store 10

/-- Body of the `execute_scheduled` loop for one record: skip non-pending
records and records without a `scheduled_time` key; for due records either
mark `dry_run`, call the publishing client (`posted` / `failed`), or — with
no client configured — mark `no_api` without producing a results entry. -/
def execStep (now : Nat) (dry : Bool) (api : Option (String → PubResult))
    (item : Record) : Record × Option ResultEntry :=
  if item.status = "pending" then
    match item.scheduled_time with
    | none => (item, none)
    | some st =>
      if st ≤ now then
        if dry then
          ({ item with status := "dry_run" },
           some { text := item.text, result := ExecOutcome.dryRun })
        else
          match api with
          | some post =>
            let r := post item.text
            if r.success then
              ({ item with status := "posted", posted_at := some now, tweet_id := some r.tweet_id },
               some { text := item.text, result := ExecOutcome.api r })
            else
              ({ item with status := "failed", error := some r.error },
               some { text := item.text, result := ExecOutcome.api r })
          | none => ({ item with status := "no_api" }, none)
      else (item, none)
  else (item, none)

/-- `PostScheduler.execute_scheduled`: process every record in store order,
returning the updated store (persisted) and the results list. -/
def execute_scheduled (now : Nat) (dry : Bool)
    (api : Option (String → PubResult)) (store : List Record) :
    List Record × List ResultEntry :=
  (store.map (fun it => (execStep now dry api it).1),
   store.filterMap (fun it => (execStep now dry api it).2))

/-- `PostScheduler._update_history`: append one history entry per results
entry to the existing history. -/
def update_history (now : Nat) (history : List HistEntry)
    (results : List ResultEntry) : List HistEntry :=
  history ++ results.map (fun r =>
    { text := r.text, timestamp := now, result := r.result })

/-- Structured content of `get_schedule_summary`: the four counts printed in
the report and the records whose lines appear in the upcoming section. -/
structure Summary where
  pending_count : Nat
  posted_count : Nat
  failed_count : Nat
  total : Nat
  upcoming : List Record
deriving DecidableEq, Repr

/-- `PostScheduler.get_schedule_summary`: counts of pending, posted and
failed records plus the total, and the first three pending records whose
time and text are listed under the upcoming heading. -/
def get_schedule_summary (store : List Record) : Summary :=
  let pending := store.filter (fun s => s.status == "pending")
  { pending_count := pending.length,
    posted_count := (store.filter (fun s => s.status == "posted")).length,
    failed_count := (store.filter (fun s => s.status == "failed")).length,
    total := store.length,
    upcoming := pending.take 3 }

/-- Outcome of `clear_completed`: the saved store, the count the function
computes and logs, and the value it returns to its caller (the Python
function has no return statement, so this is `none`). -/
structure ClearResult where
  store : List Record
  cleared : Nat
  ret : Option Nat
deriving DecidableEq, Repr

/-- `PostScheduler.clear_completed`: keep exactly the pending records, log
the number removed, return nothing. -/
def clear_completed (store : List Record) : ClearResult :=
  let remaining := store.filter (fun s => s.status == "pending")
  { store := remaining, cleared := store.length - remaining.length,
    ret := none }

/-- The copy-back loop of `main.schedule_tweets`: for each store record,
find the first assigned record with equal text (provided the store record is
still pending) and copy its `scheduled_time` and `period`. -/
def copy_back (all : List Record) (assigned : List Record) : List Record :=
  all.map (fun item =>
    match assigned.find? (fun a =>
        a.text == item.text && item.status == "pending") with
    | some a => { item with scheduled_time := a.scheduled_time, period := a.period }
    | none => item)

/-- Store-level effect of `main.schedule_tweets`: stock the approved texts,
assign slots to the first ten pending records, and copy the assignments back
into the persisted store by text match. -/
def schedule_tweets (now : Nat) (store : List Record) (texts : List String) :
    List Record :=
  let store1 := stock_tweets now store texts
  let assigned := assign_time_slots now (get_pending_tweets store1 10)
  copy_back store1 assigned

/-- A record literal used in concrete test stores: text, status, optional
scheduled time; remaining keys absent, `created_at = 0`. -/
def sampleRec (txt status : String) (st : Option Nat) : Record :=
  { text := txt, status := status, created_at := 0, posted_at := none,
    scheduled_time := st, period := none, tweet_id := none, error := none }

lemma assignAux_length (now : Nat) :
    ∀ (ss : List (String × String)) (ts : List Record),
      (assignAux now ss ts).length = ts.length := by
  intro ss
  induction ss with
  | nil => intro ts; rfl
  | cons s ss ih =>
    intro ts
    cases ts with
    | nil => rfl
    | cons t ts => simp [assignAux, ih]

lemma assignSlot_idem (now : Nat) (s : String × String) (t : Record) :
    assignSlot now s (assignSlot now s t) = assignSlot now s t := rfl

lemma assignAux_idem (now : Nat) :
    ∀ (ss : List (String × String)) (ts : List Record),
      assignAux now ss (assignAux now ss ts) = assignAux now ss ts := by
  intro ss
  induction ss with
  | nil => intro ts; rfl
  | cons s ss ih =>
    intro ts
    cases ts with
    | nil => rfl
    | cons t ts => simp [assignAux, ih, assignSlot_idem]

/-- C1 (counterexample). The claim says an already-assigned record's
`scheduled_time` is never changed by a further `assign` run.  A record
assigned slot "07:00" at reference minute 480 (08:00 of day 0) gets
`scheduled_time = 1860` (07:00 of day 1); running assign again at minute
1900 (07:40 of day 1) overwrites it with 3300 (07:00 of day 2). -/
theorem assign_overwrite_counterexample :
    (assign_time_slots 480 [sampleRec "A" "pending" none]).map
        (fun t => t.scheduled_time) = [some 1860] ∧
    (assign_time_slots 1900
        (assign_time_slots 480 [sampleRec "A" "pending" none])).map
        (fun t => t.scheduled_time) = [some 3300] ∧
    (some 3300 : Option Nat) ≠ some 1860 := by
  refine ⟨by decide, by decide, by decide⟩

/-- C1 (amended). `assign_time_slots` overwrites `scheduled_time` and
`period` of the first `min n 10` records positionally, without checking for
an existing assignment; it is idempotent only at a fixed reference time:
running it twice at the same `now` yields the same assignments, so a second
call at the same instant changes no `scheduled_time`. -/
theorem assign_time_slots_idempotent_at_fixed_now (now : Nat)
    (ts : List Record) :
    assign_time_slots now (assign_time_slots now ts) = assign_time_slots now ts := by
  unfold assign_time_slots
  rw [assignAux_length now (PEAK_SLOTS.take ts.length) ts]
  exact assignAux_idem now (PEAK_SLOTS.take ts.length) ts

/-- C2 (counterexample). A due pending record with no publishing client
configured is transitioned to `no_api`, yet the results list stays empty
and no history entry is appended for it — contradicting the claim that
no-publisher outcomes appear in the results list and in history. -/
theorem execute_no_api_counterexample :
    (execute_scheduled 10 false none [sampleRec "A" "pending" (some 0)]).1.map
        (fun r => r.status) = ["no_api"] ∧
    (execute_scheduled 10 false none [sampleRec "A" "pending" (some 0)]).2 = [] ∧
    update_history 10 []
        (execute_scheduled 10 false none [sampleRec "A" "pending" (some 0)]).2 = [] := by
  refine ⟨by decide, by decide, by decide⟩

/-- C2 (amended). With no publishing client and `dry_run = false`, every
due pending record is transitioned to the terminal status `no_api` (the
code's name for the spec's `no_publisher`) and all other records are left
unchanged, but no results entry is produced for any record, so the returned
results list is empty and the history log is unchanged. -/
theorem execute_no_api_behavior (now : Nat) (store : List Record)
    (history : List HistEntry) :
    (execute_scheduled now false none store).1 = store.map (fun it =>
      if it.status = "pending" then
        match it.scheduled_time with
        | some st => if st ≤ now then { it with status := "no_api" } else it
        | none => it
      else it) ∧
    (execute_scheduled now false none store).2 = [] ∧
    update_history now history (execute_scheduled now false none store).2 =
      history := by
  have hstep : ∀ it : Record, execStep now false none it =
      ((if it.status = "pending" then
        match it.scheduled_time with
        | some st => if st ≤ now then { it with status := "no_api" } else it
        | none => it
      else it), none) := by
    intro it
    by_cases hp : it.status = "pending"
    · cases hst : it.scheduled_time with
      | none => simp [execStep, hp, hst]
      | some st =>
        by_cases hle : st ≤ now
        · simp [execStep, hp, hst, hle]
        · simp [execStep, hp, hst, hle]
    · simp [execStep, hp]
  refine ⟨?_, ?_, ?_⟩
  · simp only [execute_scheduled]
    exact List.map_congr_left (fun it _ => by rw [hstep it])
  · simp only [execute_scheduled]
    refine List.filterMap_eq_nil_iff.mpr (fun it _ => by rw [hstep it])
  · have h2 : (execute_scheduled now false none store).2 = [] := by
      simp only [execute_scheduled]
      refine List.filterMap_eq_nil_iff.mpr (fun it _ => by rw [hstep it])
    rw [h2]
    simp [update_history]

lemma peak_hm_lt :
    ∀ s ∈ PEAK_SLOTS, (parseTime s.1).1 * 60 + (parseTime s.1).2 < 1440 := by
  decide

lemma assignAux_getElem? (now : Nat) :
    ∀ (ss : List (String × String)) (ts : List Record) (i : Nat)
      (s : String × String) (t : Record),
      ss[i]? = some s → ts[i]? = some t →
      (assignAux now ss ts)[i]? = some (assignSlot now s t) := by
  intro ss
  induction ss with
  | nil => intro ts i s t hs _; simp at hs
  | cons s0 ss ih =>
    intro ts i s t hs ht
    cases ts with
    | nil => simp at ht
    | cons t0 ts =>
      cases i with
      | zero =>
        simp only [List.getElem?_cons_zero, Option.some.injEq] at hs ht
        simp [assignAux, hs, ht]
      | succ i =>
        simp only [List.getElem?_cons_succ] at hs ht
        simpa [assignAux] using ih ts i s t hs ht

/-- C3. Slot assignment computes the next absolute minute at or after the
reference moment `now` whose wall-clock time of day equals the slot's
`HH:MM`, rolling to the same time on the next day exactly when today's
occurrence is `≤ now` (a time equal to `now` counts as already passed):
the assigned value `v` satisfies `v % 1440 = 60*HH + MM` and
`now < v ≤ now + 1440`. -/
theorem assign_next_occurrence (now : Nat) (ts : List Record) (i : Nat)
    (s : String × String) (t : Record)
    (hs : PEAK_SLOTS[i]? = some s) (ht : ts[i]? = some t) :
    ∃ r, (assign_time_slots now ts)[i]? = some r ∧
      r.scheduled_time = some
        (if now / 1440 * 1440 + ((parseTime s.1).1 * 60 + (parseTime s.1).2) ≤ now
         then now / 1440 * 1440 + ((parseTime s.1).1 * 60 + (parseTime s.1).2) + 1440
         else now / 1440 * 1440 + ((parseTime s.1).1 * 60 + (parseTime s.1).2)) ∧
      r.period = some s.2 ∧
      ∀ v, r.scheduled_time = some v →
        v % 1440 = (parseTime s.1).1 * 60 + (parseTime s.1).2 ∧
        now < v ∧ v ≤ now + 1440 := by
  have hlt : i < ts.length := by
    rcases List.getElem?_eq_some.mp ht with ⟨h, _⟩
    exact h
  have htake : (PEAK_SLOTS.take ts.length)[i]? = some s := by
    rw [List.getElem?_take, if_pos hlt]; exact hs
  have hmem : s ∈ PEAK_SLOTS := List.getElem?_mem hs
  have hm_lt := peak_hm_lt s hmem
  refine ⟨assignSlot now s t, assignAux_getElem? now _ ts i s t htake ht, rfl, rfl, ?_⟩
  intro v hv
  simp only [assignSlot, Option.some.injEq] at hv
  subst hv
  split
  · refine ⟨?_, ?_, ?_⟩ <;> omega
  · refine ⟨?_, ?_, ?_⟩ <;> omega

/-- C3 (witness). The spec's two examples with day 0 taken as 2024-01-01:
slot "07:00" at reference 480 (= 2024-01-01T08:00) is assigned 1860
(= 2024-01-02T07:00); slot "09:00" (slot index 2) at the same reference is
assigned 540 (= 2024-01-01T09:00). -/
theorem assign_next_occurrence_witness :
    (∃ r, (assign_time_slots 480 [sampleRec "A" "pending" none])[0]? = some r ∧
        r.scheduled_time = some 1860 ∧ r.period = some "morning") ∧
    (∃ r, (assign_time_slots 480 [sampleRec "A" "pending" none,
        sampleRec "B" "pending" none, sampleRec "C" "pending" none])[2]? = some r ∧
        r.scheduled_time = some 540 ∧ r.period = some "morning") := by
  constructor
  · obtain ⟨r, h1, h2, h3, _⟩ := assign_next_occurrence 480
      [sampleRec "A" "pending" none] 0 ("07:00", "morning")
      (sampleRec "A" "pending" none) (by decide) (by decide)
    exact ⟨r, h1, by rw [h2]; decide, h3⟩
  · obtain ⟨r, h1, h2, h3, _⟩ := assign_next_occurrence 480
      [sampleRec "A" "pending" none, sampleRec "B" "pending" none,
       sampleRec "C" "pending" none] 2 ("09:00", "morning")
      (sampleRec "C" "pending" none) (by decide) (by decide)
    exact ⟨r, h1, by rw [h2]; decide, h3⟩

/-- C4. When the publishing client returns a non-success result for a due
pending record, that record is set to `failed` with the client's error
stored on it (non-empty whenever the client's error message is non-empty),
every other record of the pass is still processed exactly as the per-record
step prescribes — independent of this failure — and the failed attempt
appears in the returned results list. -/
theorem execute_failed_publish (now : Nat) (store : List Record)
    (f : String → PubResult) (i : Nat) (item : Record) (st : Nat)
    (hi : store[i]? = some item)
    (hp : item.status = "pending")
    (hst : item.scheduled_time = some st) (hle : st ≤ now)
    (hf : (f item.text).success = false)
    (he : (f item.text).error ≠ "") :
    ((execute_scheduled now false (some f) store).1)[i]? =
      some { item with status := "failed", error := some (f item.text).error } ∧
    (∃ e, ({ item with status := "failed", error := some (f item.text).error } : Record).error = some e ∧ e ≠ "") ∧
    (∀ j jm, j ≠ i → store[j]? = some jm →
      ((execute_scheduled now false (some f) store).1)[j]? =
        some (execStep now false (some f) jm).1) ∧
    ResultEntry.mk item.text (ExecOutcome.api (f item.text)) ∈
      (execute_scheduled now false (some f) store).2 := by
  have hstep : execStep now false (some f) item =
      ({ item with status := "failed", error := some (f item.text).error },
       some (ResultEntry.mk item.text (ExecOutcome.api (f item.text)))) := by
    simp [execStep, hp, hst, hle, hf]
  refine ⟨?_, ⟨(f item.text).error, rfl, he⟩, ?_, ?_⟩
  · simp [execute_scheduled, List.getElem?_map, hi, hstep]
  · intro j jm _ hj
    simp [execute_scheduled, List.getElem?_map, hj]
  · refine List.mem_filterMap.mpr ⟨item, List.getElem?_mem hi, ?_⟩
    rw [hstep]

/-- A stub publishing client that fails on text "A" with error "boom" and
succeeds on every other text. -/
def failClient : String → PubResult := fun t =>
  if t == "A" then { success := false, tweet_id := "", error := "boom" }
  else { success := true, tweet_id := "id1", error := "" }

/-- C4 (witness). With two due pending records "A" and "B" and a client
failing on "A": record 0 ends `failed` with error "boom" and record 1 is
still processed by the ordinary per-record step. -/
theorem execute_failed_publish_witness :
    ((execute_scheduled 5 false (some failClient)
        [sampleRec "A" "pending" (some 0), sampleRec "B" "pending" (some 0)]).1)[0]? =
      some { sampleRec "A" "pending" (some 0) with status := "failed", error := some (failClient "A").error } ∧
    ((execute_scheduled 5 false (some failClient)
        [sampleRec "A" "pending" (some 0), sampleRec "B" "pending" (some 0)]).1)[1]? =
      some (execStep 5 false (some failClient) (sampleRec "B" "pending" (some 0))).1 := by
  have h := execute_failed_publish 5
    [sampleRec "A" "pending" (some 0), sampleRec "B" "pending" (some 0)]
    failClient 0 (sampleRec "A" "pending" (some 0)) 0
    (by decide) rfl rfl (by decide) (by decide) (by decide)
  exact ⟨h.1, h.2.2.1 1 (sampleRec "B" "pending" (some 0)) (by decide) (by decide)⟩

lemma stock_eq_append (now : Nat) (texts : List String) :
    ∀ store : List Record,
      stock_tweets now store texts = store ++ texts.map (mkPendingRecord now) := by
  induction texts with
  | nil => intro store; simp [stock_tweets]
  | cons t ts ih =>
    intro store
    simp only [stock_tweets, List.foldl_cons] at ih ⊢
    rw [ih (store ++ [mkPendingRecord now t])]
    simp

/-- C5. Stocking `n` texts appends exactly `n` records in input order: the
store grows by `texts.length`, the pre-existing prefix is unchanged in
content and order, and the record appended for the `k`-th text has that
text, status `pending`, `created_at` set to now, and no `scheduled_time`
(nor any other execution field). -/
theorem stock_tweets_appends (now : Nat) (store : List Record)
    (texts : List String) :
    (stock_tweets now store texts).length = store.length + texts.length ∧
    (stock_tweets now store texts).take store.length = store ∧
    (∀ k t, texts[k]? = some t →
      (stock_tweets now store texts)[store.length + k]? =
        some { text := t, status := "pending", created_at := now,
               posted_at := none, scheduled_time := none, period := none,
               tweet_id := none, error := none }) := by
  refine ⟨?_, ?_, ?_⟩
  · simp [stock_eq_append]
  · rw [stock_eq_append]
    simp
  · intro k t hk
    rw [stock_eq_append, List.getElem?_append_right (by omega)]
    have : store.length + k - store.length = k := by omega
    rw [this, List.getElem?_map, hk]
    rfl

/-- C5 (witness). Stocking `["a", "b"]` at time 7 onto a one-record store
yields length 3 with the new record for "b" at index 2. -/
theorem stock_tweets_appends_witness :
    (stock_tweets 7 [sampleRec "X" "posted" none] ["a", "b"]).length = 3 ∧
    (stock_tweets 7 [sampleRec "X" "posted" none] ["a", "b"]).take 1 =
      [sampleRec "X" "posted" none] ∧
    (stock_tweets 7 [sampleRec "X" "posted" none] ["a", "b"])[2]? =
      some { text := "b", status := "pending", created_at := 7,
             posted_at := none, scheduled_time := none, period := none,
             tweet_id := none, error := none } := by
  have h := stock_tweets_appends 7 [sampleRec "X" "posted" none] ["a", "b"]
  exact ⟨h.1, h.2.1, h.2.2 1 "b" (by decide)⟩

/-- Sort key used by the spec's description of the upcoming list. -/
def timeKey (r : Record) : Nat := r.scheduled_time.getD 0

/-- Insert a record after every record with a key at most its own, giving a
stable ascending insertion. -/
def insertByTime (r : Record) : List Record → List Record
  | [] => [r]
  | x :: xs =>
    if timeKey x ≤ timeKey r then x :: insertByTime r xs else r :: x :: xs

/-- Stable insertion sort by `scheduled_time`, ties keeping input order. -/
def sortByTime (l : List Record) : List Record :=
  l.foldl (fun acc r => insertByTime r acc) []

/-- Modelled from the spec: the upcoming portion as the spec words it —
the soonest `n` pending records that have a `scheduled_time`, ordered by
`scheduled_time` ascending, ties broken by original store order.  Written
for comparison against `get_schedule_summary`, not taken from the source. -/
def summary_upcoming_spec (store : List Record) (n : Nat) : List Record :=
  (sortByTime (store.filter
    (fun s => s.status == "pending" && s.scheduled_time.isSome))).take n

/-- C6 (counterexample). With two pending timed records stored later-first,
the code's upcoming list keeps store order (`[200, 100]`) while the spec's
soonest-first ordering demands `[100, 200]`; the two disagree. -/
theorem summary_upcoming_counterexample :
    (get_schedule_summary [sampleRec "A" "pending" (some 200),
        sampleRec "B" "pending" (some 100)]).upcoming =
      [sampleRec "A" "pending" (some 200), sampleRec "B" "pending" (some 100)] ∧
    summary_upcoming_spec [sampleRec "A" "pending" (some 200),
        sampleRec "B" "pending" (some 100)] 3 =
      [sampleRec "B" "pending" (some 100), sampleRec "A" "pending" (some 200)] ∧
    (get_schedule_summary [sampleRec "A" "pending" (some 200),
        sampleRec "B" "pending" (some 100)]).upcoming ≠
      summary_upcoming_spec [sampleRec "A" "pending" (some 200),
        sampleRec "B" "pending" (some 100)] 3 := by
  refine ⟨by decide, by decide, by decide⟩

/-- C6 (amended). The summary reports the counts of `pending`, `posted` and
`failed` records plus a total, and its upcoming portion lists the first
three pending records in original store order — including pending records
without a `scheduled_time` — rather than the soonest three sorted by
`scheduled_time`. -/
theorem summary_contents (store : List Record) :
    (get_schedule_summary store).pending_count =
      (store.filter (fun r => r.status == "pending")).length ∧
    (get_schedule_summary store).posted_count =
      (store.filter (fun r => r.status == "posted")).length ∧
    (get_schedule_summary store).failed_count =
      (store.filter (fun r => r.status == "failed")).length ∧
    (get_schedule_summary store).total = store.length ∧
    (get_schedule_summary store).upcoming =
      (store.filter (fun r => r.status == "pending")).take 3 ∧
    (get_schedule_summary store).upcoming.length ≤ 3 ∧
    ∀ r ∈ (get_schedule_summary store).upcoming,
      r.status = "pending" ∧ r ∈ store := by
  refine ⟨rfl, rfl, rfl, rfl, rfl, ?_, ?_⟩
  · simp [get_schedule_summary, List.length_take]
  · intro r hr
    have hmem : r ∈ store.filter (fun s => s.status == "pending") :=
      List.mem_of_mem_take hr
    rw [List.mem_filter] at hmem
    exact ⟨by simpa using hmem.2, hmem.1⟩

/-- C6 (witness). On a one-record pending store the counts and the upcoming
membership facts instantiate concretely. -/
theorem summary_contents_witness :
    (get_schedule_summary [sampleRec "A" "pending" (some 5)]).pending_count = 1 ∧
    (get_schedule_summary [sampleRec "A" "pending" (some 5)]).total = 1 ∧
    ((sampleRec "A" "pending" (some 5)).status = "pending" ∧
      sampleRec "A" "pending" (some 5) ∈ [sampleRec "A" "pending" (some 5)]) := by
  have h := summary_contents [sampleRec "A" "pending" (some 5)]
  exact ⟨h.1.trans (by decide), h.2.2.2.1.trans (by decide),
    h.2.2.2.2.2.2 (sampleRec "A" "pending" (some 5)) (by decide)⟩

/-- C7 (counterexample). On a store holding one `posted` record,
`clear_completed` removes that record (one record removed) yet returns no
value — `none`, not the removal count `some 1` the claim requires. -/
theorem clear_completed_return_counterexample :
    (clear_completed [sampleRec "A" "posted" none]).store = [] ∧
    (clear_completed [sampleRec "A" "posted" none]).cleared = 1 ∧
    (clear_completed [sampleRec "A" "posted" none]).ret = none ∧
    (clear_completed [sampleRec "A" "posted" none]).ret ≠ some 1 := by
  refine ⟨by decide, by decide, by decide, by decide⟩

/-- C7 (amended). `clear_completed` removes every non-pending record and
preserves the pending records with order and content unchanged; it computes
and logs the removal count but returns no value to the caller; running it
again on its own output removes zero records. -/
theorem clear_completed_behavior (store : List Record) :
    (clear_completed store).store =
      store.filter (fun s => s.status == "pending") ∧
    (∀ r ∈ (clear_completed store).store, r.status = "pending" ∧ r ∈ store) ∧
    (clear_completed store).store.length + (clear_completed store).cleared =
      store.length ∧
    (clear_completed store).ret = none ∧
    (clear_completed (clear_completed store).store).store =
      (clear_completed store).store ∧
    (clear_completed (clear_completed store).store).cleared = 0 := by
  have hidem : (store.filter (fun s => s.status == "pending")).filter
      (fun s => s.status == "pending") =
      store.filter (fun s => s.status == "pending") := by
    rw [List.filter_filter]
    simp
  refine ⟨rfl, ?_, ?_, rfl, ?_, ?_⟩
  · intro r hr
    rw [show (clear_completed store).store =
        store.filter (fun s => s.status == "pending") from rfl,
      List.mem_filter] at hr
    exact ⟨by simpa using hr.2, hr.1⟩
  · have hle := List.length_filter_le (fun s : Record => s.status == "pending") store
    simp only [clear_completed]
    omega
  · simp only [clear_completed]
    exact hidem
  · simp only [clear_completed, hidem]
    omega

/-- C7 (witness). One pending and one failed record: the pending record
survives with its fields intact, one record is counted removed, the return
value is `none`, and a second run removes zero. -/
theorem clear_completed_behavior_witness :
    (clear_completed [sampleRec "P" "pending" (some 1),
        sampleRec "F" "failed" none]).store = [sampleRec "P" "pending" (some 1)] ∧
    ((sampleRec "P" "pending" (some 1)).status = "pending" ∧
      sampleRec "P" "pending" (some 1) ∈ [sampleRec "P" "pending" (some 1),
        sampleRec "F" "failed" none]) ∧
    (clear_completed [sampleRec "P" "pending" (some 1),
        sampleRec "F" "failed" none]).ret = none ∧
    (clear_completed (clear_completed [sampleRec "P" "pending" (some 1),
        sampleRec "F" "failed" none]).store).cleared = 0 := by
  have h := clear_completed_behavior
    [sampleRec "P" "pending" (some 1), sampleRec "F" "failed" none]
  exact ⟨h.1.trans (by decide),
    h.2.1 (sampleRec "P" "pending" (some 1)) (by decide),
    h.2.2.2.1, h.2.2.2.2.2⟩

/-- C8. Terminal statuses are absorbing: a record whose status is not
`pending` is untouched by stocking (the prefix is preserved), skipped by the
execution pass (its fields are unchanged and it contributes no results
entry), never re-transitioned by `clear_completed` (which can only drop it —
every surviving record is an unchanged pending record of the input), and
left untouched by the driver's assign-and-persist step. -/
theorem terminal_status_absorbing (now : Nat) (dry : Bool)
    (api : Option (String → PubResult)) (store : List Record)
    (texts : List String) (i : Nat) (item : Record)
    (hi : store[i]? = some item) (hterm : item.status ≠ "pending") :
    (stock_tweets now store texts)[i]? = some item ∧
    (execStep now dry api item).1 = item ∧
    (execStep now dry api item).2 = none ∧
    ((execute_scheduled now dry api store).1)[i]? = some item ∧
    item ∉ (clear_completed store).store ∧
    (∀ r ∈ (clear_completed store).store, r ∈ store ∧ r.status = "pending") ∧
    (schedule_tweets now store texts)[i]? = some item := by
  have hlt : i < store.length := (List.getElem?_eq_some.mp hi).1
  have hstep : execStep now dry api item = (item, none) := by
    simp [execStep, hterm]
  have hstock : (stock_tweets now store texts)[i]? = some item := by
    rw [stock_eq_append, List.getElem?_append_left hlt]
    exact hi
  have hfind : ∀ assigned : List Record,
      assigned.find? (fun a => a.text == item.text && item.status == "pending") =
        none := by
    intro assigned
    refine List.find?_eq_none.mpr (fun x _ => ?_)
    simp only [Bool.and_eq_true, beq_iff_eq]
    rintro ⟨-, h2⟩
    exact hterm h2
  refine ⟨hstock, by rw [hstep], by rw [hstep], ?_, ?_, ?_, ?_⟩
  · simp [execute_scheduled, List.getElem?_map, hi, hstep]
  · intro hmem
    rw [show (clear_completed store).store =
        store.filter (fun s => s.status == "pending") from rfl,
      List.mem_filter] at hmem
    exact hterm (by simpa using hmem.2)
  · intro r hr
    rw [show (clear_completed store).store =
        store.filter (fun s => s.status == "pending") from rfl,
      List.mem_filter] at hr
    exact ⟨hr.1, by simpa using hr.2⟩
  · show (copy_back (stock_tweets now store texts) _)[i]? = some item
    rw [copy_back, List.getElem?_map, hstock, Option.map_some', hfind]

/-- C8 (witness). A `dry_run` record is preserved by stock, skipped by
execution, absent from the cleared store, and untouched by the driver's
assign-and-persist step. -/
theorem terminal_status_absorbing_witness :
    (stock_tweets 0 [sampleRec "D" "dry_run" (some 0)] ["t"])[0]? =
      some (sampleRec "D" "dry_run" (some 0)) ∧
    ((execute_scheduled 0 false none [sampleRec "D" "dry_run" (some 0)]).1)[0]? =
      some (sampleRec "D" "dry_run" (some 0)) ∧
    sampleRec "D" "dry_run" (some 0) ∉
      (clear_completed [sampleRec "D" "dry_run" (some 0)]).store ∧
    (schedule_tweets 0 [sampleRec "D" "dry_run" (some 0)] ["t"])[0]? =
      some (sampleRec "D" "dry_run" (some 0)) := by
  have h := terminal_status_absorbing 0 false none
    [sampleRec "D" "dry_run" (some 0)] ["t"] 0
    (sampleRec "D" "dry_run" (some 0)) (by decide) (by decide)
  exact ⟨h.1, h.2.2.2.1, h.2.2.2.2.1, h.2.2.2.2.2.2⟩

/-- C9. Starting from an empty store, scheduling the duplicate texts
`["A", "A"]` assigns the two pending records the distinct slots 07:00
(minute 420) and 08:00 (minute 480), yet the text-equality copy-back gives
both persisted records the first slot's `scheduled_time` and `period` —
distinct slots are not kept distinct across duplicate texts. -/
theorem schedule_tweets_duplicate_text :
    (schedule_tweets 0 [] ["A", "A"]).map
        (fun r => (r.scheduled_time, r.period)) =
      [(some 420, some "morning"), (some 420, some "morning")] ∧
    (assign_time_slots 0 (get_pending_tweets (stock_tweets 0 [] ["A", "A"]) 10)).map
        (fun r => r.scheduled_time) = [some 420, some 480] ∧
    (some 480 : Option Nat) ≠ some 420 := by
  refine ⟨by decide, by decide, by decide⟩

/-- C10. `get_pending_tweets` returns exactly the first `count` pending
records in store order — its length is `min count` the number of pending
records, every returned record is a pending record of the store — and the
Python default argument is `count = 10`; as a pure projection it leaves the
store unchanged. -/
theorem get_pending_tweets_spec (store : List Record) (count : Nat) :
    get_pending_tweets store count =
      (store.filter (fun s => s.status == "pending")).take count ∧
    (get_pending_tweets store count).length =
      min count (store.filter (fun s => s.status == "pending")).length ∧
    (∀ r ∈ get_pending_tweets store count, r.status = "pending" ∧ r ∈ store) ∧
    get_pending_tweets_default store = get_pending_tweets store 10 := by
  refine ⟨rfl, ?_, ?_, rfl⟩
  · simp [get_pending_tweets, List.length_take]
  · intro r hr
    have hmem : r ∈ store.filter (fun s => s.status == "pending") :=
      List.mem_of_mem_take hr
    rw [List.mem_filter] at hmem
    exact ⟨by simpa using hmem.2, hmem.1⟩

/-- C10 (witness). On a pending-then-posted store with `count = 1` the
returned list is the single pending record, of length `min 1 1`, and it is
a pending member of the store. -/
theorem get_pending_tweets_spec_witness :
    get_pending_tweets [sampleRec "A" "pending" none,
        sampleRec "B" "posted" none] 1 = [sampleRec "A" "pending" none] ∧
    (get_pending_tweets [sampleRec "A" "pending" none,
        sampleRec "B" "posted" none] 1).length = 1 ∧
    ((sampleRec "A" "pending" none).status = "pending" ∧
      sampleRec "A" "pending" none ∈ [sampleRec "A" "pending" none,
        sampleRec "B" "posted" none]) := by
  have h := get_pending_tweets_spec
    [sampleRec "A" "pending" none, sampleRec "B" "posted" none] 1
  exact ⟨h.1.trans (by decide), h.2.1.trans (by decide),
    h.2.2.1 (sampleRec "A" "pending" none) (by decide)⟩
